import Mathlib

/-!
Shallow embedding of the terminal screen-buffer core (`buffer/buffer.go` of the
aminal repository) and verification of its specification claims.

Modelling conventions:
* Go slices become `List`; indexing `s[i]` out of range is a Go panic and is
  modelled by `Option`-valued operations returning `none`.
* Go `uint16` values are modelled as `Nat` holding values `< 65536`; every
  arithmetic step that can overflow or underflow in Go is written with an
  explicit `% 65536` (`x - 1` on a `uint16` becomes `(x + 65535) % 65536`).
* Go `int16` values in `MovePosition` are modelled as `Int` wrapped into
  `[-32768, 32767]` by `wrap16` (Go fixed-width signed arithmetic wraps).
* Operations that cannot fault return `Buffer`; operations containing an
  unchecked slice access (or a loop that can run forever) return
  `Option Buffer`, `none` marking the fault.
-/

/-- Modelled from the spec: the `CellAttributes` type lives in a repository file
that is not under `src/` (spec §3: foreground/background colour plus boolean
display flags such as bold/underline).  The exact field set is irrelevant to
every buffer-level claim; attributes are only copied around as opaque values. -/
structure CellAttributes where
  fgColour : Nat
  bgColour : Nat
  bold : Bool
  underline : Bool
deriving DecidableEq, Repr

/-- Modelled from the spec (§3, §4.1): one display position, a glyph plus an
attribute snapshot taken from the cursor at write time. -/
structure Cell where
  r : Nat
  attr : CellAttributes
deriving DecidableEq, Repr

/-- Modelled from the spec (§4.2, §4.4 step 4): a fresh blank cell (blank glyph,
zero-value attributes), as produced when a line is padded up to the cursor
column. -/
def newCell : Cell := ⟨0, ⟨0, 0, false, false⟩⟩

/-- Modelled from the spec (§4.1): `setRune` stores the glyph. -/
def Cell.setRune (c : Cell) (r : Nat) : Cell := { c with r := r }

/-- Modelled from the spec (§4.1): `erase` resets the glyph to the blank marker
without touching the attribute. -/
def Cell.erase (c : Cell) : Cell := { c with r := 0 }

/-- Modelled from the spec (§3, §4.2): a row of text, an ordered cell sequence
plus the wrapped-continuation flag. -/
structure Line where
  cells : List Cell
  wrapped : Bool
deriving DecidableEq, Repr

/-- Modelled from the spec (§4.2): construction yields an empty cell sequence
and `wrapped = false`. -/
def newLine : Line := ⟨[], false⟩

/-- Modelled from the spec (§4.2): `setWrapped` flips the continuation flag. -/
def Line.setWrapped (l : Line) (w : Bool) : Line := { l with wrapped := w }

/-- The `Buffer` struct (buffer.go:9-17).  `cursorX`, `cursorY`, `viewHeight`
and `viewWidth` are Go `uint16` fields, modelled as `Nat` values `< 65536`
(every operation below only ever stores such values).  The
`displayChangeHandlers` field (a list of notification channels) is omitted: no
operation of `buffer.go` reads it to decide buffer state and no claim observes
it. -/
structure Buffer where
  lines : List Line
  cursorX : Nat
  cursorY : Nat
  viewHeight : Nat
  viewWidth : Nat
  cursorAttr : CellAttributes
deriving DecidableEq, Repr

/-- Wrap an integer into the Go `int16` range `[-32768, 32767]` (Go
fixed-width signed arithmetic is two's-complement and wraps on overflow).
Applied to a `uint16` value it is exactly Go's `int16(x)` reinterpretation. -/
def wrap16 (z : Int) : Int := (z + 32768).emod 65536 - 32768

/-- Go's conversion of an integer to `uint16` (truncation mod 2^16). -/
def toU16 (z : Int) : Nat := (z.emod 65536).toNat

/-- `Height` (buffer.go:97-99): the raw scrollback length `len(buffer.lines)`. -/
def Buffer.Height (b : Buffer) : Nat := b.lines.length

/-- `ViewHeight` (buffer.go:101-103). -/
def Buffer.ViewHeight (b : Buffer) : Nat := b.viewHeight

/-- `ViewWidth` (buffer.go:93-95). -/
def Buffer.ViewWidth (b : Buffer) : Nat := b.viewWidth

/-- `Width` (buffer.go:89-91). -/
def Buffer.Width (b : Buffer) : Nat := b.viewWidth

/-- `CursorColumn` (buffer.go:66-68). -/
def Buffer.CursorColumn (b : Buffer) : Nat := b.cursorX

/-- `CursorLine` (buffer.go:71-73). -/
def Buffer.CursorLine (b : Buffer) : Nat := b.cursorY

/-- `convertViewLineToRawLine` (buffer.go:80-86).  Both branches are
non-negative integer arithmetic in Go (`rawHeight - viewHeight ≥ 0` holds in
the second branch), so plain `Nat` arithmetic is exact. -/
def Buffer.convertViewLineToRawLine (b : Buffer) (viewLine : Nat) : Nat :=
  if b.Height < b.viewHeight then viewLine
  else viewLine + (b.Height - b.viewHeight)

/-- `RawLine` (buffer.go:76-78). -/
def Buffer.RawLine (b : Buffer) : Nat :=
  b.convertViewLineToRawLine b.cursorY

/-- `ResizeView` (buffer.go:301-306): stores the new view dimensions (the
parameters are `uint16`). -/
def Buffer.ResizeView (b : Buffer) (width height : Nat) : Buffer :=
  { b with viewWidth := width % 65536, viewHeight := height % 65536 }

/-- `NewBuffer` (buffer.go:20-29): zero cursor, empty scrollback, then
`ResizeView`. -/
def NewBuffer (viewCols viewLines : Nat) (attr : CellAttributes) : Buffer :=
  Buffer.ResizeView ⟨[], 0, 0, 0, 0, attr⟩ viewCols viewLines

/-- `GetCell` (buffer.go:35-47).  The parameters are Go `int`; `uint16(viewRow)`
truncates mod 2^16 (`toU16`).  The Go check `rawLine < 0` can never fire
(`rawLine` is `uint64`) and is dropped; `int(rawLine) >= len(buffer.lines)` is
exactly the `none` case of the list lookup. -/
def Buffer.GetCell (b : Buffer) (viewCol viewRow : Int) : Option Cell :=
  let rawLine := b.convertViewLineToRawLine (toU16 viewRow)
  if viewCol < 0 then none
  else
    match b.lines[rawLine]? with
    | none => none
    | some line =>
      if (line.cells.length : Int) ≤ viewCol then none
      else line.cells[viewCol.toNat]?

/-- `getCurrentLine` (buffer.go:236-243): the Go function returns the line
pointer when `int(RawLine()) < len(lines)` and an error otherwise; `Option`
models the `(*Line, error)` pair. -/
def Buffer.getCurrentLine (b : Buffer) : Option Line :=
  b.lines[b.RawLine]?

/-- `ensureLinesExistToRawHeight` (buffer.go:105-109), in closed form.  The Go
loop `for int(b.RawLine()) >= len(b.lines) { append(newLine()) }` behaves as
follows (see `ensureLinesLoop` below for the literal loop and
`ensureLinesLoop_eq` for the proof that it equals this definition):
* if `cursorY < viewHeight` the loop appends blank lines until the scrollback
  holds the cursor's raw line, i.e. exactly `cursorY + 1 - len(lines)` lines
  (zero when the raw line already exists);
* if `cursorY ≥ viewHeight` the exit condition is unsatisfiable (appending a
  line moves the raw line down as well) and the loop never terminates —
  modelled as `none`. -/
def Buffer.ensureLinesExistToRawHeight (b : Buffer) : Option Buffer :=
  if b.cursorY < b.viewHeight then
    some { b with lines := b.lines ++ List.replicate (b.cursorY + 1 - b.lines.length) newLine }
  else none

/-- The literal loop of `ensureLinesExistToRawHeight` (buffer.go:106-108), one
append per recursive call; `none` on the non-terminating branch. -/
def ensureLinesLoop (b : Buffer) : Option Buffer :=
  if h1 : b.lines.length ≤ b.RawLine then
    if h2 : b.cursorY < b.viewHeight then
      ensureLinesLoop { b with lines := b.lines ++ [newLine] }
    else none
  else some b
termination_by b.cursorY + 1 - b.lines.length
decreasing_by
  have hlen : b.lines.length ≤ b.cursorY := by
    by_cases hv : b.Height < b.viewHeight
    · simpa [Buffer.RawLine, Buffer.convertViewLineToRawLine, hv] using h1
    · exfalso
      have hr : b.RawLine = b.cursorY + (b.Height - b.viewHeight) := by
        simp [Buffer.RawLine, Buffer.convertViewLineToRawLine, hv]
      have hH : b.Height = b.lines.length := rfl
      omega
  simp only [List.length_append, List.length_cons, List.length_nil]
  omega

/-- `incrementCursorPosition` (buffer.go:133-157).  All cursor arithmetic is
`uint16`.  The final branch dereferences `buffer.lines[buffer.RawLine()]`
without a bounds check; an out-of-range index is a Go panic, modelled `none`. -/
def Buffer.incrementCursorPosition (b : Buffer) : Option Buffer :=
  if (b.CursorColumn + 1) % 65536 < b.Width then
    some { b with cursorX := (b.cursorX + 1) % 65536 }
  else if b.cursorY = (b.viewHeight + 65535) % 65536 then
    some { b with lines := b.lines ++ [newLine.setWrapped true], cursorX := 0 }
  else if b.Height < b.ViewHeight then
    some { b with cursorX := 0, lines := b.lines ++ [newLine.setWrapped true],
                  cursorY := (b.cursorY + 1) % 65536 }
  else
    match b.lines[b.RawLine]? with
    | none => none
    | some line =>
      some { b with cursorX := 0, lines := b.lines.set b.RawLine (line.setWrapped true) }

/-- `CarriageReturn` (buffer.go:159-170).  `cursorY--` is `uint16` decrement:
at `cursorY = 0` it wraps to `65535`. -/
def Buffer.CarriageReturn (b : Buffer) : Buffer :=
  match b.getCurrentLine with
  | none => { b with cursorX := 0 }
  | some line =>
    if b.cursorX = 0 ∧ line.wrapped then
      { b with cursorY := (b.cursorY + 65535) % 65536 }
    else
      { b with cursorX := 0 }

/-- The shared tail of `NewLine` (buffer.go:182-188): scroll by appending a
fresh line when on the last view row, otherwise advance the row. -/
def Buffer.newLineAdvance (b : Buffer) : Buffer :=
  if b.cursorY = (b.viewHeight + 65535) % 65536 then
    { b with lines := b.lines ++ [newLine], cursorX := 0 }
  else
    { b with cursorX := 0, cursorY := (b.cursorY + 1) % 65536 }

/-- `NewLine` (buffer.go:172-189).  When `cursorX = 0` the Go code dereferences
`buffer.lines[buffer.RawLine()]` without a bounds check before inspecting the
wrapped flag; an out-of-range index is a Go panic, modelled `none`. -/
def Buffer.NewLine (b : Buffer) : Option Buffer :=
  if b.cursorX = 0 then
    match b.lines[b.RawLine]? with
    | none => none
    | some line =>
      if line.wrapped then
        some { b with lines := b.lines.set b.RawLine (line.setWrapped false) }
      else some b.newLineAdvance
  else some b.newLineAdvance

/-- The cell-padding loop of `Write` (buffer.go:123-125): append blank cells
until the cursor column is indexable, i.e. until the length reaches
`max(len, n)` where `n` is cursor column + 1. -/
def padCells (cells : List Cell) (n : Nat) : List Cell :=
  cells ++ List.replicate (n - cells.length) newCell

/-- The plain-rune body of `Write` (buffer.go:122-128): pad the current line
(`line`, already fetched at the cursor's raw index) with blank cells until the
cursor column is indexable, then overwrite that cell's glyph and attribute
with the rune and the cursor attribute. -/
def Buffer.writePlainRune (b1 : Buffer) (r : Nat) (line : Line) : Buffer :=
  let cells := padCells line.cells (b1.CursorColumn + 1)
  let cell := cells.getD b1.CursorColumn newCell
  let cell := cell.setRune r
  let cell := { cell with attr := b1.cursorAttr }
  { b1 with lines := b1.lines.set b1.RawLine { line with cells := cells.set b1.CursorColumn cell } }

/-- `Write` (buffer.go:111-131).  One iteration per rune: ensure the cursor's
raw line exists, then dispatch on line-feed / carriage-return / plain rune
(the plain-rune body is `writePlainRune`, followed by the cursor increment).
`none` propagates a fault from `ensureLinesExistToRawHeight` (non-termination),
`NewLine`, the raw-line lookup, or `incrementCursorPosition`. -/
def Buffer.Write : Buffer → List Nat → Option Buffer
  | b, [] => some b
  | b, r :: rest =>
    match b.ensureLinesExistToRawHeight with
    | none => none
    | some b1 =>
      if r = 0x0a then
        match b1.NewLine with
        | none => none
        | some b2 => b2.Write rest
      else if r = 0x0d then
        (b1.CarriageReturn).Write rest
      else
        match b1.lines[b1.RawLine]? with
        | none => none
        | some line =>
          match (b1.writePlainRune r line).incrementCursorPosition with
          | none => none
          | some b3 => b3.Write rest

/-- `SetPosition` (buffer.go:204-215): clamp each `uint16` coordinate to the
last valid index when it is at or beyond the view bound (`ViewWidth() - 1` is
`uint16` subtraction, hence `65535` when the view width is zero); the logging
call carries no state. -/
def Buffer.SetPosition (b : Buffer) (col line : Nat) : Buffer :=
  let col := col % 65536
  let line := line % 65536
  let col := if b.ViewWidth ≤ col then (b.ViewWidth + 65535) % 65536 else col
  let line := if b.ViewHeight ≤ line then (b.ViewHeight + 65535) % 65536 else line
  { b with cursorX := col, cursorY := line }

/-- `MovePosition` (buffer.go:191-202): relative move with `int16` arithmetic
(wrapping), clamping each delta so the cursor cannot go above/left of the
origin, then delegating to `SetPosition` with `uint16` conversions. -/
def Buffer.MovePosition (b : Buffer) (x y : Int) : Buffer :=
  let x := wrap16 x
  let y := wrap16 y
  let x := if wrap16 (wrap16 b.cursorX + x) < 0 then wrap16 (-(wrap16 b.cursorX)) else x
  let y := if wrap16 (wrap16 b.cursorY + y) < 0 then wrap16 (-(wrap16 b.cursorY)) else y
  b.SetPosition (toU16 (wrap16 (wrap16 b.cursorX + x))) (toU16 (wrap16 (wrap16 b.cursorY + y)))

/-- `GetVisibleLines` (buffer.go:217-225): the Go loop runs `i` from
`Height() - ViewHeight()` (as `int`, possibly negative) up to `Height() - 1`,
appending `lines[i]` whenever `0 <= i && i < len(lines)`; iteration `k` of the
`ViewHeight()` iterations visits `i = Height - ViewHeight + k`. -/
def Buffer.GetVisibleLines (b : Buffer) : List Line :=
  (List.range b.ViewHeight).filterMap fun (k : Nat) =>
    let i : Int := (b.Height : Int) - (b.ViewHeight : Int) + (k : Int)
    if 0 ≤ i ∧ i < (b.lines.length : Int) then b.lines[i.toNat]? else none

/-- `Clear` (buffer.go:229-234): append a full view's worth of fresh blank
lines, then `SetPosition(0, 0)`. -/
def Buffer.Clear (b : Buffer) : Buffer :=
  Buffer.SetPosition { b with lines := b.lines ++ List.replicate b.ViewHeight newLine } 0 0

/-- `EraseLine` (buffer.go:245-251): replace the current line's cells with an
empty slice; silent no-op when the current line does not exist. -/
def Buffer.EraseLine (b : Buffer) : Buffer :=
  match b.getCurrentLine with
  | none => b
  | some line =>
    { b with lines := b.lines.set b.RawLine { line with cells := [] } }

/-- `EraseLineToCursor` (buffer.go:253-263): erase every materialized cell with
index `i ≤ cursorX` (the Go loop bound-checks each index, so this is a map over
the materialized cells). -/
def Buffer.EraseLineToCursor (b : Buffer) : Buffer :=
  match b.getCurrentLine with
  | none => b
  | some line =>
    let newCells := line.cells.mapIdx (fun i c => if i ≤ b.cursorX then c.erase else c)
    { b with lines := b.lines.set b.RawLine { line with cells := newCells } }

/-- `EraseLineAfterCursor` (buffer.go:265-273): erase every materialized cell
from index `cursorX + 1` on; the start index is computed in `uint16`
(`int(buffer.cursorX + 1)`), hence the `% 65536`. -/
def Buffer.EraseLineAfterCursor (b : Buffer) : Buffer :=
  match b.getCurrentLine with
  | none => b
  | some line =>
    let newCells := line.cells.mapIdx (fun i c => if (b.cursorX + 1) % 65536 ≤ i then c.erase else c)
    { b with lines := b.lines.set b.RawLine { line with cells := newCells } }

/-- `EraseDisplayAfterCursor` (buffer.go:275-286): truncate the current line's
cells to the cursor column (`line.cells[:cursorX]`), then clear every raw line
below.  When `cursorX ≤ len(line.cells)` the Go slice expression is fully
determined (`len ≤ cap` always holds) and the model matches it exactly.  When
`cursorX > len(line.cells)` Go's behavior depends on the slice's capacity,
which a length-only model does not track: the expression panics iff
`cursorX > cap(line.cells)`, and otherwise re-exposes backing-array contents
beyond the current length (append over-allocates, so `cap > len` is common).
That capacity-dependent branch is modelled as `none`, and no theorem in this
development asserts anything about the program's behavior on it. -/
def Buffer.EraseDisplayAfterCursor (b : Buffer) : Option Buffer :=
  match b.getCurrentLine with
  | none => some b
  | some line =>
    if b.cursorX ≤ line.cells.length then
      let ls := b.lines.set b.RawLine { line with cells := line.cells.take b.cursorX }
      let ls := ls.mapIdx (fun i l => if b.RawLine + 1 ≤ i then { l with cells := [] } else l)
      some { b with lines := ls }
    else none

/-- `EraseDisplayToCursor` (buffer.go:288-299): drop the current line's cells
up to and including the cursor column (`line.cells[cursorX+1:]`, the bound
computed in `uint16`), then clear every raw line above.  A lower slice bound
beyond the length is a guaranteed Go panic (`low ≤ len` is required regardless
of capacity) — `none`. -/
def Buffer.EraseDisplayToCursor (b : Buffer) : Option Buffer :=
  match b.getCurrentLine with
  | none => some b
  | some line =>
    if (b.cursorX + 1) % 65536 ≤ line.cells.length then
      let ls := b.lines.set b.RawLine { line with cells := line.cells.drop ((b.cursorX + 1) % 65536) }
      let ls := ls.mapIdx (fun i l => if i < b.RawLine then { l with cells := [] } else l)
      some { b with lines := ls }
    else none

/-- Cursor-in-view invariant (spec §3): the cursor coordinates are valid view
coordinates. -/
def cursorInView (b : Buffer) : Prop :=
  b.cursorX < b.viewWidth ∧ b.cursorY < b.viewHeight

instance (b : Buffer) : Decidable (cursorInView b) := by
  unfold cursorInView; infer_instance

/-- A concrete default attribute value, used by witnesses and counterexamples. -/
def dAttr : CellAttributes := ⟨0, 0, false, false⟩

theorem ensureLinesLoop_eq (b : Buffer) : ensureLinesLoop b = b.ensureLinesExistToRawHeight := by
  generalize hm : b.cursorY + 1 - b.lines.length = n
  induction n generalizing b with
  | zero =>
    rw [ensureLinesLoop]
    by_cases hc : b.cursorY < b.viewHeight
    · have hraw : b.RawLine < b.lines.length := by
        by_cases hv : b.Height < b.viewHeight
        · have h3 : b.RawLine = b.cursorY := by
            simp [Buffer.RawLine, Buffer.convertViewLineToRawLine, hv]
          have hH : b.Height = b.lines.length := rfl
          omega
        · have h3 : b.RawLine = b.cursorY + (b.Height - b.viewHeight) := by
            simp [Buffer.RawLine, Buffer.convertViewLineToRawLine, hv]
          have hH : b.Height = b.lines.length := rfl
          omega
      rw [dif_neg (by omega)]
      unfold Buffer.ensureLinesExistToRawHeight
      rw [if_pos hc]
      have hm0 : b.cursorY + 1 - b.lines.length = 0 := hm
      simp [hm0]
    · have hraw : b.lines.length ≤ b.RawLine := by
        by_cases hv : b.Height < b.viewHeight
        · have h3 : b.RawLine = b.cursorY := by
            simp [Buffer.RawLine, Buffer.convertViewLineToRawLine, hv]
          have hH : b.Height = b.lines.length := rfl
          omega
        · have h3 : b.RawLine = b.cursorY + (b.Height - b.viewHeight) := by
            simp [Buffer.RawLine, Buffer.convertViewLineToRawLine, hv]
          have hH : b.Height = b.lines.length := rfl
          omega
      rw [dif_pos hraw, dif_neg hc]
      unfold Buffer.ensureLinesExistToRawHeight
      rw [if_neg hc]
  | succ n ih =>
    rw [ensureLinesLoop]
    have hlen : b.lines.length ≤ b.cursorY := by omega
    have hraw : b.lines.length ≤ b.RawLine := by
      by_cases hv : b.Height < b.viewHeight
      · have : b.RawLine = b.cursorY := by
          simp [Buffer.RawLine, Buffer.convertViewLineToRawLine, hv]
        omega
      · have : b.RawLine = b.cursorY + (b.Height - b.viewHeight) := by
          simp [Buffer.RawLine, Buffer.convertViewLineToRawLine, hv]
        have hH : b.Height = b.lines.length := rfl
        omega
    rw [dif_pos hraw]
    by_cases hc : b.cursorY < b.viewHeight
    · rw [dif_pos hc]
      rw [ih _ (by simp; omega)]
      unfold Buffer.ensureLinesExistToRawHeight
      simp only [if_pos hc]
      congr 1
      simp only [List.length_append, List.length_cons, List.length_nil]
      have h1 : b.cursorY + 1 - b.lines.length = (b.cursorY + 1 - (b.lines.length + 1)) + 1 := by
        omega
      rw [h1, List.replicate_succ, List.append_assoc]
      rfl
    · rw [dif_neg hc]
      unfold Buffer.ensureLinesExistToRawHeight
      rw [if_neg hc]

/-! ### Supporting lemmas -/

theorem rawLine_def (b : Buffer) :
    b.RawLine = if b.lines.length < b.viewHeight then b.cursorY
                else b.cursorY + (b.lines.length - b.viewHeight) := rfl

theorem getCurrentLine_some_lt {b : Buffer} {l : Line} (h : b.getCurrentLine = some l) :
    b.RawLine < b.lines.length := by
  unfold Buffer.getCurrentLine at h
  by_contra hn
  rw [List.getElem?_eq_none (by omega)] at h
  cases h

theorem rawLine_set (b : Buffer) (i : Nat) (v : Line) :
    Buffer.RawLine { b with lines := b.lines.set i v } = b.RawLine := by
  rw [rawLine_def, rawLine_def]
  simp

theorem eraseLine_eq_of_some {b : Buffer} {line : Line} (h : b.getCurrentLine = some line) :
    b.EraseLine = { b with lines := b.lines.set b.RawLine { line with cells := [] } } := by
  unfold Buffer.EraseLine
  rw [h]

theorem eraseLine_eq_of_none {b : Buffer} (h : b.getCurrentLine = none) :
    b.EraseLine = b := by
  unfold Buffer.EraseLine
  rw [h]

theorem setPosition_spec (b : Buffer) (col line : Nat) :
    (b.SetPosition col line).cursorX
        = (if b.viewWidth ≤ col % 65536 then (b.viewWidth + 65535) % 65536 else col % 65536) ∧
    (b.SetPosition col line).cursorY
        = (if b.viewHeight ≤ line % 65536 then (b.viewHeight + 65535) % 65536 else line % 65536) ∧
    (b.SetPosition col line).lines = b.lines ∧
    (b.SetPosition col line).viewWidth = b.viewWidth ∧
    (b.SetPosition col line).viewHeight = b.viewHeight ∧
    (b.SetPosition col line).cursorAttr = b.cursorAttr := by
  simp [Buffer.SetPosition, Buffer.ViewWidth, Buffer.ViewHeight]

/-! ### C3 -/

/-- C3: the view-to-raw mapping satisfies
`convertViewLineToRawLine r = r + max(0, rawHeight - viewHeight)` for every
view row `r` (the `max` is expressed as `Int.toNat` of the difference), and
`RawLine` is this mapping applied to the cursor row. -/
theorem C3_raw_view_mapping (b : Buffer) (r : Nat) :
    b.convertViewLineToRawLine r = r + ((b.Height : Int) - (b.ViewHeight : Int)).toNat ∧
    b.RawLine = b.cursorY + ((b.Height : Int) - (b.ViewHeight : Int)).toNat := by
  have h : ∀ v : Nat, b.convertViewLineToRawLine v
      = v + ((b.Height : Int) - (b.ViewHeight : Int)).toNat := by
    intro v
    unfold Buffer.convertViewLineToRawLine Buffer.Height Buffer.ViewHeight
    split <;> omega
  exact ⟨h r, h b.cursorY⟩

/-! ### C6 -/

/-- C6: `SetPosition` clamps out-of-range targets to the last valid index:
with positive view dimensions (all quantities `uint16`), a column at or beyond
`viewWidth` is stored as `viewWidth - 1` and a row at or beyond `viewHeight`
as `viewHeight - 1`; in particular `SetPosition(viewWidth, 0)` yields cursor
column `viewWidth - 1`. -/
theorem C6_setPosition_clamps (b : Buffer) (col row : Nat)
    (hw1 : 0 < b.viewWidth) (hw2 : b.viewWidth < 65536)
    (hh1 : 0 < b.viewHeight) (hh2 : b.viewHeight < 65536)
    (hcol : col < 65536) (hrow : row < 65536) :
    (b.viewWidth ≤ col → (b.SetPosition col row).cursorX = b.viewWidth - 1) ∧
    (b.viewHeight ≤ row → (b.SetPosition col row).cursorY = b.viewHeight - 1) ∧
    (b.SetPosition b.viewWidth 0).cursorX = b.viewWidth - 1 := by
  refine ⟨fun h => ?_, fun h => ?_, ?_⟩
  · rw [(setPosition_spec b col row).1, Nat.mod_eq_of_lt hcol, if_pos h]
    omega
  · rw [(setPosition_spec b col row).2.1, Nat.mod_eq_of_lt hrow, if_pos h]
    omega
  · rw [(setPosition_spec b b.viewWidth 0).1, Nat.mod_eq_of_lt hw2,
      if_pos (Nat.le_refl _)]
    omega

/-- Witness for C6 at a concrete input: a 3×2 buffer, `SetPosition(5, 7)`. -/
theorem C6_witness :
    ((NewBuffer 3 2 dAttr).SetPosition 5 7).cursorX = 2 ∧
    ((NewBuffer 3 2 dAttr).SetPosition 5 7).cursorY = 1 := by
  have h := C6_setPosition_clamps (NewBuffer 3 2 dAttr) 5 7 (by decide) (by decide)
    (by decide) (by decide) (by decide) (by decide)
  exact ⟨h.1 (by decide), h.2.1 (by decide)⟩

/-! ### C7 -/

/-- C7: when the cursor's raw line is not yet present in scrollback
(`RawLine() ≥ Height()`), each of the five erase operations is a complete
no-op: it completes without fault and leaves the buffer unchanged. -/
theorem C7_erase_noop (b : Buffer) (h : b.Height ≤ b.RawLine) :
    b.EraseLine = b ∧ b.EraseLineToCursor = b ∧ b.EraseLineAfterCursor = b ∧
    b.EraseDisplayAfterCursor = some b ∧ b.EraseDisplayToCursor = some b := by
  have hcl : b.getCurrentLine = none := by
    unfold Buffer.getCurrentLine
    exact List.getElem?_eq_none h
  unfold Buffer.EraseLine Buffer.EraseLineToCursor Buffer.EraseLineAfterCursor
    Buffer.EraseDisplayAfterCursor Buffer.EraseDisplayToCursor
  rw [hcl]
  exact ⟨rfl, rfl, rfl, rfl, rfl⟩

/-- Witness for C7: a freshly constructed 2×2 buffer has `RawLine = 0` and
empty scrollback, so every erase operation leaves it untouched. -/
theorem C7_witness :
    (NewBuffer 2 2 dAttr).EraseLine = NewBuffer 2 2 dAttr ∧
    (NewBuffer 2 2 dAttr).EraseDisplayToCursor = some (NewBuffer 2 2 dAttr) := by
  exact ⟨(C7_erase_noop (NewBuffer 2 2 dAttr) (by decide)).1,
         (C7_erase_noop (NewBuffer 2 2 dAttr) (by decide)).2.2.2.2⟩

/-! ### C10 -/

/-- C10: `EraseLine` is idempotent — applying it twice yields exactly the
state of applying it once; after one application the current line's cell
sequence is empty (and nothing else changes). -/
theorem C10_eraseLine_idempotent (b : Buffer) :
    b.EraseLine.EraseLine = b.EraseLine ∧
    b.EraseLine.getCurrentLine = b.getCurrentLine.map (fun l => { l with cells := [] }) := by
  cases hcl : b.getCurrentLine with
  | none =>
    constructor
    · rw [eraseLine_eq_of_none hcl, eraseLine_eq_of_none hcl]
    · rw [eraseLine_eq_of_none hcl, hcl]
      rfl
  | some line =>
    have hraw : b.RawLine < b.lines.length := getCurrentLine_some_lt hcl
    have hb1 := eraseLine_eq_of_some hcl
    have hraw1 : Buffer.RawLine { b with lines := b.lines.set b.RawLine { line with cells := [] } }
        = b.RawLine := rawLine_set b _ _
    have hcl1 : (b.EraseLine).getCurrentLine = some { line with cells := [] } := by
      rw [hb1]
      unfold Buffer.getCurrentLine
      rw [hraw1]
      rw [List.getElem?_set]
      simp [hraw]
    constructor
    · rw [eraseLine_eq_of_some hcl1, hb1]
      simp only [hraw1]
      simp [List.set_set]
    · rw [hcl1]
      rfl

/-! ### C8 -/

/-- Counterexample to C8 as stated: `Clear` on a buffer with a degenerate view
dimension does not reset the cursor to `(0, 0)` — the `SetPosition(0, 0)`
inside `Clear` treats coordinate 0 as out of range when the corresponding view
dimension is 0, and the `uint16` clamp to `dimension - 1` underflows to 65535
(the column when `viewWidth = 0`, the row when `viewHeight = 0`). -/
theorem C8_counterexample :
    ((NewBuffer 0 1 dAttr).Clear).cursorX = 65535 ∧
    ((NewBuffer 0 1 dAttr).Clear).cursorX ≠ 0 ∧
    ((NewBuffer 1 0 dAttr).Clear).cursorY = 65535 ∧
    ((NewBuffer 1 0 dAttr).Clear).cursorY ≠ 0 := by
  refine ⟨?_, ?_, ?_, ?_⟩ <;> decide

theorem clear_cursor (b : Buffer) :
    (b.Clear).cursorX = (if b.viewWidth ≤ 0 then (b.viewWidth + 65535) % 65536 else 0) ∧
    (b.Clear).cursorY = (if b.viewHeight ≤ 0 then (b.viewHeight + 65535) % 65536 else 0) := by
  unfold Buffer.Clear
  have hsp := setPosition_spec { b with lines := b.lines ++ List.replicate b.ViewHeight newLine } 0 0
  constructor
  · rw [hsp.1]
  · rw [hsp.2.1]

/-- C8 (amended): for every buffer, `Clear` appends exactly `viewHeight` fresh
blank lines — `Height()` grows by exactly `viewHeight`, every previously
existing line is unchanged and retrievable at its original raw index, and each
appended raw index holds an empty non-wrapped line.  The cursor column is
reset to 0 whenever `viewWidth` is positive and the cursor row to 0 whenever
`viewHeight` is positive; with a zero dimension the corresponding `uint16`
clamp inside `SetPosition(0, 0)` underflows to 65535 instead. -/
theorem C8_clear_appends (b : Buffer) :
    (b.Clear).Height = b.Height + b.viewHeight ∧
    (∀ i, i < b.Height → (b.Clear).lines[i]? = b.lines[i]?) ∧
    (∀ i, b.Height ≤ i → i < b.Height + b.viewHeight → (b.Clear).lines[i]? = some ⟨[], false⟩) ∧
    (0 < b.viewWidth → (b.Clear).cursorX = 0) ∧
    (0 < b.viewHeight → (b.Clear).cursorY = 0) := by
  have hcur := clear_cursor b
  have hsp := setPosition_spec { b with lines := b.lines ++ List.replicate b.ViewHeight newLine } 0 0
  have hlines : (b.Clear).lines = b.lines ++ List.replicate b.viewHeight newLine := by
    unfold Buffer.Clear
    rw [hsp.2.2.1]
    rfl
  refine ⟨?_, ?_, ?_, ?_, ?_⟩
  · unfold Buffer.Height
    rw [hlines]
    simp
  · intro i hi
    rw [hlines]
    exact List.getElem?_append_left hi
  · intro i h1 h2
    rw [hlines]
    rw [List.getElem?_append_right h1]
    rw [List.getElem?_replicate]
    rw [if_pos (by unfold Buffer.Height at h1 h2; omega)]
    rfl
  · intro hw
    rw [hcur.1, if_neg (by omega)]
  · intro hh
    rw [hcur.2, if_neg (by omega)]

/-- Witness for C8 at a concrete input: clearing a 2×2 buffer that already
holds one written line grows the scrollback from 1 to 3, keeps the old line at
raw index 0, puts a blank line at raw index 2, and resets the cursor. -/
theorem C8_witness :
    (Buffer.Clear ⟨[⟨[⟨97, dAttr⟩], false⟩], 1, 0, 2, 2, dAttr⟩).Height = 3 ∧
    (Buffer.Clear ⟨[⟨[⟨97, dAttr⟩], false⟩], 1, 0, 2, 2, dAttr⟩).lines[0]? = some ⟨[⟨97, dAttr⟩], false⟩ ∧
    (Buffer.Clear ⟨[⟨[⟨97, dAttr⟩], false⟩], 1, 0, 2, 2, dAttr⟩).lines[2]? = some ⟨[], false⟩ ∧
    (Buffer.Clear ⟨[⟨[⟨97, dAttr⟩], false⟩], 1, 0, 2, 2, dAttr⟩).cursorX = 0 ∧
    (Buffer.Clear ⟨[⟨[⟨97, dAttr⟩], false⟩], 1, 0, 2, 2, dAttr⟩).cursorY = 0 := by
  have h := C8_clear_appends ⟨[⟨[⟨97, dAttr⟩], false⟩], 1, 0, 2, 2, dAttr⟩
  refine ⟨by simpa using h.1, ?_, ?_, h.2.2.2.1 (by decide), h.2.2.2.2 (by decide)⟩
  · have h0 := h.2.1 0 (by decide)
    simpa using h0
  · have h2 := h.2.2.1 2 (by decide) (by decide)
    simpa using h2

/-! ### C9 -/

/-- C9: `GetCell` is a pure query (its type `Buffer → Int → Int → Option Cell`
cannot modify the buffer or materialize lines/cells), and it returns `none`
exactly when the column is negative, the mapped raw row is outside the current
scrollback, or the column is at or beyond the addressed line's materialized
cell count. -/
theorem C9_getCell_none_iff (b : Buffer) (viewCol viewRow : Int) :
    b.GetCell viewCol viewRow = none ↔
      (viewCol < 0 ∨
       b.lines.length ≤ b.convertViewLineToRawLine (toU16 viewRow) ∨
       ∃ line, b.lines[b.convertViewLineToRawLine (toU16 viewRow)]? = some line ∧
         (line.cells.length : Int) ≤ viewCol) := by
  unfold Buffer.GetCell
  by_cases hneg : viewCol < 0
  · simp [hneg]
  · rw [if_neg hneg]
    cases hline : b.lines[b.convertViewLineToRawLine (toU16 viewRow)]? with
    | none =>
      simp only [hline]
      have hlen : b.lines.length ≤ b.convertViewLineToRawLine (toU16 viewRow) := by
        by_contra hn
        rw [List.getElem?_eq_getElem (by omega)] at hline
        cases hline
      simp [hneg, hlen]
    | some line =>
      simp only [hline]
      have hlen : ¬ b.lines.length ≤ b.convertViewLineToRawLine (toU16 viewRow) := by
        intro hn
        rw [List.getElem?_eq_none hn] at hline
        cases hline
      by_cases hcol : (line.cells.length : Int) ≤ viewCol
      · simp [hcol, hneg, hlen]
      · rw [if_neg hcol]
        have hsome : line.cells[viewCol.toNat]?.isSome := by
          rw [List.getElem?_eq_getElem (by omega)]
          rfl
        constructor
        · intro hnone
          rw [hnone] at hsome
          cases hsome
        · rintro (h | h | ⟨line2, hl2, hc2⟩)
          · exact absurd h hneg
          · exact absurd h hlen
          · cases hl2
            exact absurd hc2 hcol

/-! ### C5 -/

theorem filterMap_congr_mem {α β : Type} (l : List α) (f g : α → Option β)
    (h : ∀ x ∈ l, f x = g x) : l.filterMap f = l.filterMap g := by
  induction l with
  | nil => rfl
  | cons a l ih =>
    rw [List.filterMap_cons, List.filterMap_cons, h a (by simp)]
    rw [ih (fun x hx => h x (by simp [hx]))]

theorem filterMap_range_take (l : List Line) (s : Nat) :
    ∀ n, s + n ≤ l.length →
      (List.range n).filterMap (fun k => l[s + k]?) = (l.drop s).take n := by
  intro n
  induction n with
  | zero => intro _; simp
  | succ n ih =>
    intro h
    rw [List.range_succ, List.filterMap_append, ih (by omega)]
    have hs : s + n < l.length := by omega
    have h1 : List.filterMap (fun k => l[s + k]?) [n] = [l.get ⟨s + n, hs⟩] := by
      simp [List.getElem?_eq_getElem hs, List.get_eq_getElem]
    rw [h1, List.take_succ]
    congr 1
    rw [List.getElem?_drop]
    simp [List.getElem?_eq_getElem hs, List.get_eq_getElem]

theorem getVisibleLines_eq_drop (b : Buffer) (h : b.viewHeight ≤ b.lines.length) :
    b.GetVisibleLines = b.lines.drop (b.lines.length - b.viewHeight) := by
  simp only [Buffer.GetVisibleLines, Buffer.ViewHeight, Buffer.Height]
  have hcong : ∀ k ∈ List.range b.viewHeight,
      (if 0 ≤ (b.lines.length : Int) - (b.viewHeight : Int) + (k : Int) ∧
          (b.lines.length : Int) - (b.viewHeight : Int) + (k : Int) < (b.lines.length : Int)
       then b.lines[((b.lines.length : Int) - (b.viewHeight : Int) + (k : Int)).toNat]? else none)
      = b.lines[(b.lines.length - b.viewHeight) + k]? := by
    intro k hk
    rw [List.mem_range] at hk
    rw [if_pos (by constructor <;> omega)]
    congr 1
    omega
  rw [filterMap_congr_mem _ _ (fun k => b.lines[(b.lines.length - b.viewHeight) + k]?) hcong]
  rw [filterMap_range_take b.lines (b.lines.length - b.viewHeight) b.viewHeight (by omega)]
  rw [List.take_of_length_le (by simp; omega)]

/-- Counterexample to C5 as stated: public operations can produce a buffer
with `viewHeight = 0` (here via `ResizeView`); on such a buffer with
scrollback height `2 > 0 = viewHeight`, `GetVisibleLines()` is empty, so its
last element does not exist while `lines[H-1]` does. -/
theorem C5_counterexample :
    Buffer.Write (NewBuffer 1 1 dAttr) [97]
      = some ⟨[⟨[⟨97, dAttr⟩], false⟩, ⟨[], true⟩], 0, 0, 1, 1, dAttr⟩ ∧
    (Buffer.ResizeView ⟨[⟨[⟨97, dAttr⟩], false⟩, ⟨[], true⟩], 0, 0, 1, 1, dAttr⟩ 1 0).Height = 2 ∧
    (Buffer.ResizeView ⟨[⟨[⟨97, dAttr⟩], false⟩, ⟨[], true⟩], 0, 0, 1, 1, dAttr⟩ 1 0).viewHeight = 0 ∧
    (Buffer.ResizeView ⟨[⟨[⟨97, dAttr⟩], false⟩, ⟨[], true⟩], 0, 0, 1, 1, dAttr⟩ 1 0).GetVisibleLines.getLast?
      = none ∧
    (Buffer.ResizeView ⟨[⟨[⟨97, dAttr⟩], false⟩, ⟨[], true⟩], 0, 0, 1, 1, dAttr⟩ 1 0).lines[2 - 1]?
      = some ⟨[], true⟩ := by
  refine ⟨?_, ?_, ?_, ?_, ?_⟩ <;> decide

/-- C5 (amended): for every buffer with `Height() > viewHeight`,
`GetVisibleLines()` returns exactly `viewHeight` lines, and — provided the
view is not degenerate (`viewHeight ≥ 1`) — its last element is
`lines[Height()-1]`, the most recent scrollback line. -/
theorem C5_visible_lines (b : Buffer) (h : b.viewHeight < b.Height) :
    (b.GetVisibleLines).length = b.viewHeight ∧
    (1 ≤ b.viewHeight → b.GetVisibleLines.getLast? = b.lines[b.Height - 1]?) := by
  have hle : b.viewHeight ≤ b.lines.length := by
    unfold Buffer.Height at h
    omega
  have hd := getVisibleLines_eq_drop b hle
  constructor
  · rw [hd]
    simp only [List.length_drop]
    omega
  · intro h1
    rw [hd, List.getLast?_eq_getElem?, List.getElem?_drop]
    congr 1
    simp only [List.length_drop]
    unfold Buffer.Height
    unfold Buffer.Height at h
    omega

/-- Witness for C5 at a concrete input: a buffer with two scrollback lines and
a one-row view shows exactly the most recent line. -/
theorem C5_witness :
    (Buffer.GetVisibleLines ⟨[⟨[⟨97, dAttr⟩], false⟩, ⟨[], true⟩], 0, 0, 1, 1, dAttr⟩).length = 1 ∧
    (Buffer.GetVisibleLines ⟨[⟨[⟨97, dAttr⟩], false⟩, ⟨[], true⟩], 0, 0, 1, 1, dAttr⟩).getLast?
      = some ⟨[], true⟩ := by
  have h := C5_visible_lines ⟨[⟨[⟨97, dAttr⟩], false⟩, ⟨[], true⟩], 0, 0, 1, 1, dAttr⟩ (by decide)
  refine ⟨h.1, ?_⟩
  rw [h.2 (by decide)]
  decide

/-! ### C1 -/

theorem ensure_some (b : Buffer) (h : b.cursorY < b.viewHeight) :
    b.ensureLinesExistToRawHeight
      = some { b with lines := b.lines ++ List.replicate (b.cursorY + 1 - b.lines.length) newLine } := by
  unfold Buffer.ensureLinesExistToRawHeight
  rw [if_pos h]

theorem ensure_post (b : Buffer) (h : b.cursorY < b.viewHeight) :
    ∀ b1, b.ensureLinesExistToRawHeight = some b1 →
      b1.RawLine < b1.lines.length ∧ b1.cursorX = b.cursorX ∧ b1.cursorY = b.cursorY ∧
      b1.viewWidth = b.viewWidth ∧ b1.viewHeight = b.viewHeight ∧ b1.cursorAttr = b.cursorAttr := by
  intro b1 h1
  rw [ensure_some b h] at h1
  cases h1
  refine ⟨?_, rfl, rfl, rfl, rfl, rfl⟩
  rw [rawLine_def]
  simp only [List.length_append, List.length_replicate]
  split <;> omega

theorem newLine_none_iff (b : Buffer) :
    b.NewLine = none ↔ (b.cursorX = 0 ∧ b.lines.length ≤ b.RawLine) := by
  unfold Buffer.NewLine
  by_cases hx : b.cursorX = 0
  · rw [if_pos hx]
    cases hl : b.lines[b.RawLine]? with
    | none =>
      have hle : b.lines.length ≤ b.RawLine := by
        by_contra hn
        rw [List.getElem?_eq_getElem (by omega)] at hl
        cases hl
      simp [hx, hle]
    | some line =>
      have hlt : b.RawLine < b.lines.length := by
        by_contra hn
        rw [List.getElem?_eq_none (by omega)] at hl
        cases hl
      dsimp only
      split_ifs <;> simp [hx] <;> omega
  · rw [if_neg hx]
    simp [hx]

theorem eraseDisplayAfterCursor_isSome (b : Buffer) :
    (∀ line, b.getCurrentLine = some line → b.cursorX ≤ line.cells.length) →
    (b.EraseDisplayAfterCursor).isSome := by
  intro h
  unfold Buffer.EraseDisplayAfterCursor
  cases hcl : b.getCurrentLine with
  | none => rfl
  | some line =>
    dsimp only
    rw [if_pos (h line hcl)]
    rfl

theorem eraseDisplayToCursor_none_iff (b : Buffer) :
    b.EraseDisplayToCursor = none ↔
      ∃ line, b.getCurrentLine = some line ∧ line.cells.length < (b.cursorX + 1) % 65536 := by
  unfold Buffer.EraseDisplayToCursor
  cases hcl : b.getCurrentLine with
  | none => simp
  | some line =>
    dsimp only
    split_ifs with hle
    · simp
      omega
    · simp
      omega

theorem increment_some_of_lt (b : Buffer) (h : b.RawLine < b.lines.length) :
    (b.incrementCursorPosition).isSome := by
  unfold Buffer.incrementCursorPosition Buffer.CursorColumn Buffer.Width
    Buffer.Height Buffer.ViewHeight
  split_ifs
  · rfl
  · rfl
  · rfl
  · rw [List.getElem?_eq_getElem h]
    rfl

theorem writePlain_fields (b1 : Buffer) (r : Nat) (line : Line) :
    (b1.writePlainRune r line).RawLine = b1.RawLine ∧
    (b1.writePlainRune r line).lines.length = b1.lines.length ∧
    (b1.writePlainRune r line).cursorX = b1.cursorX ∧
    (b1.writePlainRune r line).cursorY = b1.cursorY ∧
    (b1.writePlainRune r line).viewWidth = b1.viewWidth ∧
    (b1.writePlainRune r line).viewHeight = b1.viewHeight := by
  unfold Buffer.writePlainRune
  exact ⟨rawLine_set b1 _ _, by simp, rfl, rfl, rfl, rfl⟩

theorem write_one_isSome (b : Buffer) (r : Nat) (h : b.cursorY < b.viewHeight) :
    (b.Write [r]).isSome := by
  cases he2 : b.ensureLinesExistToRawHeight with
  | none =>
    rw [ensure_some b h] at he2
    cases he2
  | some B1 =>
  obtain ⟨hraw, hcx, hcy, hvw, hvh, hattr⟩ := ensure_post b h B1 he2
  simp only [Buffer.Write, he2]
  by_cases hr10 : r = 10
  · rw [if_pos hr10]
    cases hnl : B1.NewLine with
    | none =>
      rw [newLine_none_iff] at hnl
      omega
    | some b2 => simp [Buffer.Write]
  · rw [if_neg hr10]
    by_cases hr13 : r = 13
    · rw [if_pos hr13]
      simp [Buffer.Write]
    · rw [if_neg hr13]
      cases hl : B1.lines[B1.RawLine]? with
      | none =>
        rw [List.getElem?_eq_none_iff] at hl
        omega
      | some line =>
        cases hinc : (B1.writePlainRune r line).incrementCursorPosition with
        | none =>
          exfalso
          have hs := increment_some_of_lt (B1.writePlainRune r line)
            (by rw [(writePlain_fields B1 r line).1, (writePlain_fields B1 r line).2.1]; exact hraw)
          rw [hinc] at hs
          cases hs
        | some b3 => simp [hinc]

/-- Counterexample to C1 as stated: (i) `NewLine` on a freshly constructed
(empty-scrollback) buffer dereferences `lines[RawLine()]` out of range — a
panic; (ii) after writing one rune, `EraseDisplayToCursor` slices
`cells[cursorX+1:]` with the lower bound (2) beyond the cell count (1) — a
panic the Go specification guarantees regardless of the slice's capacity.
Both states are reachable by public operations from a fresh buffer. -/
theorem C1_counterexample :
    (NewBuffer 1 1 dAttr).NewLine = none ∧
    Buffer.Write (NewBuffer 2 2 dAttr) [97] = some ⟨[⟨[⟨97, dAttr⟩], false⟩], 1, 0, 2, 2, dAttr⟩ ∧
    Buffer.EraseDisplayToCursor ⟨[⟨[⟨97, dAttr⟩], false⟩], 1, 0, 2, 2, dAttr⟩ = none := by
  refine ⟨?_, ?_, ?_⟩ <;> decide

/-- C1 (amended): `CarriageReturn`, `SetPosition`, `MovePosition`, `Clear`,
`ResizeView`, `EraseLine`, `EraseLineToCursor` and `EraseLineAfterCursor`
never fault (they are total `Buffer → Buffer` functions in this embedding,
every Go bound check appearing as an explicit guard).  For the remaining
mutators, on any state whose cursor row lies inside the view height:
writing a single rune completes; `NewLine` faults exactly when the cursor
column is 0 and its raw line is not materialized; `EraseDisplayAfterCursor`
completes whenever the current line is absent or the cursor column is at most
its materialized cell count (beyond that, Go panics iff the column exceeds the
slice's capacity, which the materialized cells do not determine — no claim is
made there); `EraseDisplayToCursor` faults exactly when the current line
exists and the (uint16) cursor column + 1 exceeds its cell count. -/
theorem C1_no_fault (b : Buffer) (r : Nat) (h : b.cursorY < b.viewHeight) :
    (b.Write [r]).isSome ∧
    (b.NewLine = none ↔ (b.cursorX = 0 ∧ b.lines.length ≤ b.RawLine)) ∧
    ((∀ line, b.getCurrentLine = some line → b.cursorX ≤ line.cells.length) →
      (b.EraseDisplayAfterCursor).isSome) ∧
    (b.EraseDisplayToCursor = none ↔
      ∃ line, b.getCurrentLine = some line ∧ line.cells.length < (b.cursorX + 1) % 65536) :=
  ⟨write_one_isSome b r h, newLine_none_iff b,
   eraseDisplayAfterCursor_isSome b, eraseDisplayToCursor_none_iff b⟩

/-- Witness for C1 at a concrete input: a fresh 2×2 buffer accepts a plain
rune without fault. -/
theorem C1_witness : ((NewBuffer 2 2 dAttr).Write [97]).isSome :=
  (C1_no_fault (NewBuffer 2 2 dAttr) 97 (by decide)).1

/-! ### C2 -/

theorem setPosition_inv (b : Buffer) (col row : Nat)
    (hw1 : 0 < b.viewWidth) (hw2 : b.viewWidth < 65536)
    (hh1 : 0 < b.viewHeight) (hh2 : b.viewHeight < 65536) :
    cursorInView (b.SetPosition col row) := by
  have h := setPosition_spec b col row
  unfold cursorInView
  rw [h.1, h.2.1, h.2.2.2.1, h.2.2.2.2.1]
  constructor <;> split_ifs <;> omega

theorem movePosition_inv (b : Buffer) (dx dy : Int)
    (hw1 : 0 < b.viewWidth) (hw2 : b.viewWidth < 65536)
    (hh1 : 0 < b.viewHeight) (hh2 : b.viewHeight < 65536) :
    cursorInView (b.MovePosition dx dy) := by
  simp only [Buffer.MovePosition]
  exact setPosition_inv b _ _ hw1 hw2 hh1 hh2

theorem clear_inv (b : Buffer)
    (hw1 : 0 < b.viewWidth) (hw2 : b.viewWidth < 65536)
    (hh1 : 0 < b.viewHeight) (hh2 : b.viewHeight < 65536) :
    cursorInView b.Clear := by
  unfold Buffer.Clear
  exact setPosition_inv _ 0 0 hw1 hw2 hh1 hh2

theorem eraseLine_inv (b : Buffer) (h : cursorInView b) : cursorInView b.EraseLine := by
  unfold Buffer.EraseLine
  cases hcl : b.getCurrentLine <;> exact h

theorem eraseLineToCursor_inv (b : Buffer) (h : cursorInView b) :
    cursorInView b.EraseLineToCursor := by
  unfold Buffer.EraseLineToCursor
  cases hcl : b.getCurrentLine <;> exact h

theorem eraseLineAfterCursor_inv (b : Buffer) (h : cursorInView b) :
    cursorInView b.EraseLineAfterCursor := by
  unfold Buffer.EraseLineAfterCursor
  cases hcl : b.getCurrentLine <;> exact h

theorem eraseDisplayAfterCursor_inv (b : Buffer) (h : cursorInView b) :
    ∀ b2, b.EraseDisplayAfterCursor = some b2 → cursorInView b2 := by
  unfold Buffer.EraseDisplayAfterCursor
  cases hcl : b.getCurrentLine with
  | none =>
    intro b2 h2
    cases h2
    exact h
  | some line =>
    intro b2 h2
    dsimp only at h2
    split_ifs at h2
    cases h2
    exact h

theorem eraseDisplayToCursor_inv (b : Buffer) (h : cursorInView b) :
    ∀ b2, b.EraseDisplayToCursor = some b2 → cursorInView b2 := by
  unfold Buffer.EraseDisplayToCursor
  cases hcl : b.getCurrentLine with
  | none =>
    intro b2 h2
    cases h2
    exact h
  | some line =>
    intro b2 h2
    dsimp only at h2
    split_ifs at h2
    cases h2
    exact h

theorem newLineAdvance_inv (b : Buffer)
    (hw1 : 0 < b.viewWidth) (hh1 : 0 < b.viewHeight) (hh2 : b.viewHeight < 65536)
    (h : cursorInView b) : cursorInView b.newLineAdvance := by
  obtain ⟨h1, h2⟩ := h
  unfold Buffer.newLineAdvance
  split_ifs with hy
  · exact ⟨hw1, h2⟩
  · exact ⟨hw1, by show (b.cursorY + 1) % 65536 < b.viewHeight; omega⟩

theorem newLine_inv (b : Buffer)
    (hw1 : 0 < b.viewWidth) (hh1 : 0 < b.viewHeight) (hh2 : b.viewHeight < 65536)
    (h : cursorInView b) :
    ∀ b2, b.NewLine = some b2 → cursorInView b2 := by
  have hadv := newLineAdvance_inv b hw1 hh1 hh2 h
  unfold Buffer.NewLine
  by_cases hx : b.cursorX = 0
  · rw [if_pos hx]
    cases hl : b.lines[b.RawLine]? with
    | none =>
      intro b2 h2
      cases h2
    | some line =>
      dsimp only
      split_ifs with hwr
      · intro b2 h2
        cases h2
        exact h
      · intro b2 h2
        cases h2
        exact hadv
  · rw [if_neg hx]
    intro b2 h2
    cases h2
    exact hadv

theorem carriageReturn_inv (b : Buffer)
    (hw1 : 0 < b.viewWidth) (hh2 : b.viewHeight < 65536) (h : cursorInView b)
    (hsafe : b.cursorX = 0 → b.cursorY = 0 → ∀ l, b.getCurrentLine = some l → l.wrapped = false) :
    cursorInView b.CarriageReturn := by
  unfold Buffer.CarriageReturn
  cases hcl : b.getCurrentLine with
  | none => exact ⟨hw1, h.2⟩
  | some line =>
    dsimp only
    split_ifs with hw
    · obtain ⟨hx0, hwr⟩ := hw
      rcases Nat.eq_zero_or_pos b.cursorY with hy0 | hy1
      · have := hsafe hx0 hy0 line hcl
        rw [this] at hwr
        cases hwr
      · exact ⟨h.1, by show (b.cursorY + 65535) % 65536 < b.viewHeight; obtain ⟨-, h2⟩ := h; omega⟩
    · exact ⟨hw1, h.2⟩

theorem increment_inv (b : Buffer)
    (hw1 : 0 < b.viewWidth) (hh2 : b.viewHeight < 65536) (h : cursorInView b) :
    ∀ b2, b.incrementCursorPosition = some b2 → cursorInView b2 := by
  obtain ⟨h1, h2⟩ := h
  intro b2 hinc
  unfold Buffer.incrementCursorPosition Buffer.CursorColumn Buffer.Width
    Buffer.Height Buffer.ViewHeight at hinc
  split_ifs at hinc with hc1 hc2 hc3
  · cases hinc
    exact ⟨hc1, h2⟩
  · cases hinc
    exact ⟨hw1, h2⟩
  · cases hinc
    exact ⟨hw1, by show (b.cursorY + 1) % 65536 < b.viewHeight; omega⟩
  · cases hl : b.lines[b.RawLine]? with
    | none =>
      rw [hl] at hinc
      cases hinc
    | some line =>
      rw [hl] at hinc
      cases hinc
      exact ⟨hw1, h2⟩

theorem write_one_inv (b : Buffer) (r : Nat)
    (hw1 : 0 < b.viewWidth) (hh1 : 0 < b.viewHeight) (hh2 : b.viewHeight < 65536)
    (h : cursorInView b) (hr : r ≠ 13) :
    ∀ b2, b.Write [r] = some b2 → cursorInView b2 := by
  intro b2 hw'
  cases he2 : b.ensureLinesExistToRawHeight with
  | none =>
    rw [ensure_some b h.2] at he2
    cases he2
  | some B1 =>
  obtain ⟨hraw, hcx, hcy, hvw, hvh, hattr⟩ := ensure_post b h.2 B1 he2
  have hB1inv : cursorInView B1 := by
    unfold cursorInView
    rw [hcx, hcy, hvw, hvh]
    exact h
  simp only [Buffer.Write, he2] at hw'
  by_cases hr10 : r = 10
  · rw [if_pos hr10] at hw'
    cases hnl : B1.NewLine with
    | none =>
      rw [hnl] at hw'
      cases hw'
    | some b3 =>
      rw [hnl] at hw'
      simp only [Buffer.Write] at hw'
      cases hw'
      exact newLine_inv B1 (by omega) (by omega) (by omega) hB1inv _ hnl
  · rw [if_neg hr10] at hw'
    by_cases hr13 : r = 13
    · exact absurd hr13 hr
    · rw [if_neg hr13] at hw'
      cases hl : B1.lines[B1.RawLine]? with
      | none =>
        rw [hl] at hw'
        cases hw'
      | some line =>
        rw [hl] at hw'
        dsimp only at hw'
        cases hinc : (B1.writePlainRune r line).incrementCursorPosition with
        | none =>
          rw [hinc] at hw'
          cases hw'
        | some b3 =>
          rw [hinc] at hw'
          simp only [Buffer.Write] at hw'
          cases hw'
          have hplain := writePlain_fields B1 r line
          have hpinv : cursorInView (B1.writePlainRune r line) := by
            unfold cursorInView
            rw [hplain.2.2.1, hplain.2.2.2.1, hplain.2.2.2.2.1, hplain.2.2.2.2.2]
            exact hB1inv
          exact increment_inv (B1.writePlainRune r line) (by rw [hplain.2.2.2.2.1]; omega)
            (by rw [hplain.2.2.2.2.2]; omega) hpinv _ hinc

/-- Counterexample to C2 as stated: from a fresh 1×1 buffer, writing one plain
rune wraps onto a new wrapped line with the cursor at column 0 of view row 0;
`CarriageReturn` then executes `cursorY--` on the `uint16` row 0, wrapping it
to 65535 — far outside the view. -/
theorem C2_counterexample :
    Buffer.Write (NewBuffer 1 1 dAttr) [97]
      = some ⟨[⟨[⟨97, dAttr⟩], false⟩, ⟨[], true⟩], 0, 0, 1, 1, dAttr⟩ ∧
    Buffer.CarriageReturn ⟨[⟨[⟨97, dAttr⟩], false⟩, ⟨[], true⟩], 0, 0, 1, 1, dAttr⟩
      = ⟨[⟨[⟨97, dAttr⟩], false⟩, ⟨[], true⟩], 0, 65535, 1, 1, dAttr⟩ ∧
    ¬ cursorInView ⟨[⟨[⟨97, dAttr⟩], false⟩, ⟨[], true⟩], 0, 65535, 1, 1, dAttr⟩ := by
  refine ⟨?_, ?_, ?_⟩ <;> decide

/-- C2 (amended): with positive `uint16` view dimensions, the cursor-in-view
invariant `cursorX < viewWidth ∧ cursorY < viewHeight` is preserved by
`SetPosition`, `MovePosition`, `Clear`, all five erase operations, `NewLine`
(when it completes) and single-rune `Write` of any rune other than
carriage-return; `CarriageReturn` preserves it except in the one state the
counterexample exhibits — cursor at column 0 of view row 0 on a wrapped line —
where `cursorY--` underflows to 65535. -/
theorem C2_cursor_invariant (b : Buffer) (col row : Nat) (dx dy : Int) (r : Nat)
    (hw1 : 0 < b.viewWidth) (hw2 : b.viewWidth < 65536)
    (hh1 : 0 < b.viewHeight) (hh2 : b.viewHeight < 65536)
    (h : cursorInView b) :
    cursorInView (b.SetPosition col row) ∧
    cursorInView (b.MovePosition dx dy) ∧
    cursorInView b.Clear ∧
    cursorInView b.EraseLine ∧
    cursorInView b.EraseLineToCursor ∧
    cursorInView b.EraseLineAfterCursor ∧
    (∀ b2, b.EraseDisplayAfterCursor = some b2 → cursorInView b2) ∧
    (∀ b2, b.EraseDisplayToCursor = some b2 → cursorInView b2) ∧
    (∀ b2, b.NewLine = some b2 → cursorInView b2) ∧
    (r ≠ 13 → ∀ b2, b.Write [r] = some b2 → cursorInView b2) ∧
    ((b.cursorX = 0 → b.cursorY = 0 → ∀ l, b.getCurrentLine = some l → l.wrapped = false) →
      cursorInView b.CarriageReturn) :=
  ⟨setPosition_inv b col row hw1 hw2 hh1 hh2,
   movePosition_inv b dx dy hw1 hw2 hh1 hh2,
   clear_inv b hw1 hw2 hh1 hh2,
   eraseLine_inv b h,
   eraseLineToCursor_inv b h,
   eraseLineAfterCursor_inv b h,
   eraseDisplayAfterCursor_inv b h,
   eraseDisplayToCursor_inv b h,
   newLine_inv b hw1 hh1 hh2 h,
   fun hr => write_one_inv b r hw1 hh1 hh2 h hr,
   carriageReturn_inv b hw1 hh2 h⟩

/-- Witness for C2 at a concrete input: the invariant holds after
`SetPosition(5, 7)` on a fresh 2×2 buffer. -/
theorem C2_witness : cursorInView ((NewBuffer 2 2 dAttr).SetPosition 5 7) :=
  (C2_cursor_invariant (NewBuffer 2 2 dAttr) 5 7 0 0 97 (by decide) (by decide)
    (by decide) (by decide) (by decide)).1

/-! ### C4 -/

theorem write_append (b : Buffer) (l1 l2 : List Nat) :
    b.Write (l1 ++ l2) = (b.Write l1).bind (fun x => x.Write l2) := by
  induction l1 generalizing b with
  | nil => simp [Buffer.Write]
  | cons r rest ih =>
    simp only [List.cons_append, Buffer.Write]
    cases b.ensureLinesExistToRawHeight with
    | none => rfl
    | some b1 =>
      dsimp only
      split_ifs
      · cases b1.NewLine with
        | none => rfl
        | some b2 => exact ih b2
      · exact ih _
      · cases b1.lines[b1.RawLine]? with
        | none => rfl
        | some line =>
          dsimp only
          cases (b1.writePlainRune r line).incrementCursorPosition with
          | none => rfl
          | some b3 => exact ih b3

theorem write_plain_step (vw vh : Nat) (attr : CellAttributes) (cs : List Cell) (r : Nat)
    (rest : List Nat) (hjvw : cs.length + 1 ≤ vw) (hvw2 : vw < 65536)
    (hvh : 2 ≤ vh) (hvh2 : vh < 65536) (hr1 : r ≠ 10) (hr2 : r ≠ 13) :
    Buffer.Write ⟨[⟨cs, false⟩], cs.length, 0, vh, vw, attr⟩ (r :: rest) =
      if cs.length + 1 < vw then
        Buffer.Write ⟨[⟨cs ++ [⟨r, attr⟩], false⟩], cs.length + 1, 0, vh, vw, attr⟩ rest
      else
        Buffer.Write ⟨[⟨cs ++ [⟨r, attr⟩], false⟩, ⟨[], true⟩], 0, 1, vh, vw, attr⟩ rest := by
  have hens : Buffer.ensureLinesExistToRawHeight ⟨[⟨cs, false⟩], cs.length, 0, vh, vw, attr⟩
      = some ⟨[⟨cs, false⟩], cs.length, 0, vh, vw, attr⟩ := by
    unfold Buffer.ensureLinesExistToRawHeight
    rw [if_pos (show (0:Nat) < vh by omega)]
    simp
  have hraw : Buffer.RawLine ⟨[⟨cs, false⟩], cs.length, 0, vh, vw, attr⟩ = 0 := by
    rw [rawLine_def]
    simp
    omega
  have hwp : Buffer.writePlainRune ⟨[⟨cs, false⟩], cs.length, 0, vh, vw, attr⟩ r ⟨cs, false⟩
      = ⟨[⟨cs ++ [⟨r, attr⟩], false⟩], cs.length, 0, vh, vw, attr⟩ := by
    unfold Buffer.writePlainRune padCells Buffer.CursorColumn Cell.setRune
    dsimp only
    rw [hraw]
    simp [Nat.add_sub_cancel_left, List.getElem?_concat_length]
  have hinc : Buffer.incrementCursorPosition ⟨[⟨cs ++ [⟨r, attr⟩], false⟩], cs.length, 0, vh, vw, attr⟩
      = if cs.length + 1 < vw then
          some ⟨[⟨cs ++ [⟨r, attr⟩], false⟩], cs.length + 1, 0, vh, vw, attr⟩
        else
          some ⟨[⟨cs ++ [⟨r, attr⟩], false⟩, ⟨[], true⟩], 0, 1, vh, vw, attr⟩ := by
    unfold Buffer.incrementCursorPosition Buffer.CursorColumn Buffer.Width
      Buffer.Height Buffer.ViewHeight
    dsimp only
    rw [Nat.mod_eq_of_lt (show cs.length + 1 < 65536 by omega)]
    by_cases hlt : cs.length + 1 < vw
    · rw [if_pos hlt, if_pos hlt]
    · rw [if_neg hlt, if_neg hlt]
      rw [if_neg (show ¬(0 = (vh + 65535) % 65536) by omega)]
      rw [if_pos (show ([⟨cs ++ [⟨r, attr⟩], false⟩] : List Line).length < vh by simp [hvh]; omega)]
      simp [newLine, Line.setWrapped]
  simp only [Buffer.Write, hens]
  rw [if_neg hr1, if_neg hr2]
  rw [hraw]
  rw [show (([⟨cs, false⟩] : List Line))[0]? = some (⟨cs, false⟩ : Line) from rfl]
  dsimp only
  rw [hwp, hinc]
  by_cases hlt : cs.length + 1 < vw
  · rw [if_pos hlt, if_pos hlt]
  · rw [if_neg hlt, if_neg hlt]

theorem write_run (vw vh : Nat) (attr : CellAttributes) :
    ∀ (rest done : List Nat), (∀ x ∈ rest, x ≠ 10 ∧ x ≠ 13) →
      done.length + rest.length = vw → rest ≠ [] → vw < 65536 → 2 ≤ vh → vh < 65536 →
      Buffer.Write ⟨[⟨done.map (fun x => ⟨x, attr⟩), false⟩], done.length, 0, vh, vw, attr⟩ rest
        = some ⟨[⟨(done ++ rest).map (fun x => ⟨x, attr⟩), false⟩, ⟨[], true⟩], 0, 1, vh, vw, attr⟩ := by
  intro rest
  induction rest with
  | nil =>
    intro done _ _ hne _ _ _
    exact absurd rfl hne
  | cons r rest ih =>
    intro done hctrl hlen _ hvw2 hvh hvh2
    have hr := hctrl r (by simp)
    have hstep := write_plain_step vw vh attr (done.map (fun x => ⟨x, attr⟩)) r rest
      (by simp at hlen ⊢; omega) hvw2 hvh hvh2 hr.1 hr.2
    rw [show (done.map (fun x => (⟨x, attr⟩ : Cell))).length = done.length by simp] at hstep
    rw [hstep]
    by_cases hrest : rest = []
    · subst hrest
      have hvweq : done.length + 1 = vw := by simpa using hlen
      rw [if_neg (by omega)]
      simp only [Buffer.Write]
      simp
    · have hlt : done.length + 1 < vw := by
        have : 1 ≤ rest.length := by
          cases rest with
          | nil => exact absurd rfl hrest
          | cons a l => simp
        simp at hlen
        omega
      rw [if_pos hlt]
      have hih := ih (done ++ [r]) (fun x hx => hctrl x (by simp [hx]))
        (by simp at hlen ⊢; omega) hrest hvw2 hvh hvh2
      simp only [List.map_append, List.length_append, List.map_cons, List.map_nil,
        List.length_cons, List.length_nil, List.append_assoc, List.singleton_append,
        List.cons_append, List.nil_append] at hih ⊢
      exact hih

theorem write_start (vw vh : Nat) (attr : CellAttributes) (r : Nat) (rest : List Nat)
    (hw2 : vw < 65536) (hh1 : 0 < vh) (hh2 : vh < 65536) :
    Buffer.Write (NewBuffer vw vh attr) (r :: rest)
      = Buffer.Write ⟨[⟨[], false⟩], 0, 0, vh, vw, attr⟩ (r :: rest) := by
  have h1 : NewBuffer vw vh attr = ⟨[], 0, 0, vh, vw, attr⟩ := by
    unfold NewBuffer Buffer.ResizeView
    simp [Nat.mod_eq_of_lt hw2, Nat.mod_eq_of_lt hh2]
  rw [h1]
  have hens1 : Buffer.ensureLinesExistToRawHeight ⟨[], 0, 0, vh, vw, attr⟩
      = some ⟨[⟨[], false⟩], 0, 0, vh, vw, attr⟩ := by
    unfold Buffer.ensureLinesExistToRawHeight
    rw [if_pos (show (0:Nat) < vh by omega)]
    simp [newLine]
  have hens2 : Buffer.ensureLinesExistToRawHeight ⟨[⟨[], false⟩], 0, 0, vh, vw, attr⟩
      = some ⟨[⟨[], false⟩], 0, 0, vh, vw, attr⟩ := by
    unfold Buffer.ensureLinesExistToRawHeight
    rw [if_pos (show (0:Nat) < vh by omega)]
    simp
  simp only [Buffer.Write, hens1, hens2]

theorem write_lf_clears_wrap (vw vh : Nat) (attr : CellAttributes) (cs : List Cell)
    (hvh : 2 ≤ vh) :
    Buffer.Write ⟨[⟨cs, false⟩, ⟨[], true⟩], 0, 1, vh, vw, attr⟩ [10]
      = some ⟨[⟨cs, false⟩, ⟨[], false⟩], 0, 1, vh, vw, attr⟩ := by
  have hens : Buffer.ensureLinesExistToRawHeight ⟨[⟨cs, false⟩, ⟨[], true⟩], 0, 1, vh, vw, attr⟩
      = some ⟨[⟨cs, false⟩, ⟨[], true⟩], 0, 1, vh, vw, attr⟩ := by
    unfold Buffer.ensureLinesExistToRawHeight
    rw [if_pos (show (1:Nat) < vh by omega)]
    simp
  have hraw : Buffer.RawLine ⟨[⟨cs, false⟩, ⟨[], true⟩], 0, 1, vh, vw, attr⟩ = 1 := by
    rw [rawLine_def]
    simp
    omega
  have hnl : Buffer.NewLine ⟨[⟨cs, false⟩, ⟨[], true⟩], 0, 1, vh, vw, attr⟩
      = some ⟨[⟨cs, false⟩, ⟨[], false⟩], 0, 1, vh, vw, attr⟩ := by
    unfold Buffer.NewLine
    rw [if_pos rfl, hraw]
    rw [show (([⟨cs, false⟩, ⟨[], true⟩] : List Line))[1]? = some (⟨[], true⟩ : Line) from rfl]
    dsimp only [Line.setWrapped]
    rfl
  simp only [Buffer.Write, hens, if_true]
  rw [hnl]

/-- C4: starting from an empty buffer with `viewWidth ≥ 1` and
`viewHeight ≥ 2`, writing exactly `viewWidth` plain (non-LF, non-CR) runes
wraps onto one appended line marked `wrapped` with the cursor at column 0 of
the next view row (scrollback height 2); the subsequent line-feed merely
clears the wrapped flag — same row, no appended line — so the final
scrollback height is exactly 2 and no visible blank row appears. -/
theorem C4_wrap_then_lf (vw vh : Nat) (attr : CellAttributes) (rs : List Nat)
    (hw1 : 1 ≤ vw) (hw2 : vw < 65536) (hh1 : 2 ≤ vh) (hh2 : vh < 65536)
    (hlen : rs.length = vw) (hctrl : ∀ x ∈ rs, x ≠ 10 ∧ x ≠ 13) :
    Buffer.Write (NewBuffer vw vh attr) rs
      = some ⟨[⟨rs.map (fun x => ⟨x, attr⟩), false⟩, ⟨[], true⟩], 0, 1, vh, vw, attr⟩ ∧
    Buffer.Write ⟨[⟨rs.map (fun x => ⟨x, attr⟩), false⟩, ⟨[], true⟩], 0, 1, vh, vw, attr⟩ [10]
      = some ⟨[⟨rs.map (fun x => ⟨x, attr⟩), false⟩, ⟨[], false⟩], 0, 1, vh, vw, attr⟩ ∧
    Buffer.Write (NewBuffer vw vh attr) (rs ++ [10])
      = some ⟨[⟨rs.map (fun x => ⟨x, attr⟩), false⟩, ⟨[], false⟩], 0, 1, vh, vw, attr⟩ := by
  obtain ⟨r, rest, rfl⟩ : ∃ r rest, rs = r :: rest := by
    cases rs with
    | nil => simp at hlen; omega
    | cons a l => exact ⟨a, l, rfl⟩
  have hrun := write_run vw vh attr (r :: rest) [] hctrl (by simpa using hlen)
    (by simp) hw2 hh1 hh2
  simp only [List.map_nil, List.length_nil, List.nil_append] at hrun
  have hA : Buffer.Write (NewBuffer vw vh attr) (r :: rest)
      = some ⟨[⟨(r :: rest).map (fun x => ⟨x, attr⟩), false⟩, ⟨[], true⟩], 0, 1, vh, vw, attr⟩ := by
    rw [write_start vw vh attr r rest hw2 (by omega) hh2]
    exact hrun
  have hB := write_lf_clears_wrap vw vh attr ((r :: rest).map (fun x => ⟨x, attr⟩)) hh1
  refine ⟨hA, hB, ?_⟩
  rw [write_append, hA]
  simpa using hB

/-- Witness for C4 at a concrete input: a 2×2 buffer, writing "ab" then a
line-feed yields exactly two scrollback lines, the second one unwrapped and
blank, with the cursor at (0, 1). -/
theorem C4_witness :
    Buffer.Write (NewBuffer 2 2 dAttr) [97, 98, 10]
      = some ⟨[⟨[⟨97, dAttr⟩, ⟨98, dAttr⟩], false⟩, ⟨[], false⟩], 0, 1, 2, 2, dAttr⟩ := by
  have h := (C4_wrap_then_lf 2 2 dAttr [97, 98] (by decide) (by decide) (by decide)
    (by decide) (by decide) (by decide)).2.2
  simpa using h
